import Mathlib

/-!
Verification of the dram-planner schedule generation engine.

The development shallowly embeds `src/config.py` (preference accessors) and
`src/schedule_generator.py` (the schedule generator) in Lean:

* Calendar dates are integers counting days (Python's `datetime` restricted to
  the whole-day arithmetic the generator performs); `weekday d = d % 7` with
  Monday = 0, matching `datetime.weekday()` for `d = toordinal - 1`.
* The configuration dictionary becomes a structure of `Option` fields; each
  accessor applies exactly the `dict.get` defaulting of `config.py`.
* The ambient random generator (`random.shuffle`, `random.choices`,
  `random.random`) is an injected `RandomSource`; `RandomSource.Valid` records
  the facts every outcome of the real generator satisfies (shuffles are
  permutations, `choices` returns `k` members of the population).
* The deterministic error checks performed inside CPython's `random.choices`
  (IndexError on an empty population, ValueError on a non-positive weight
  total) and the `ZeroDivisionError` of `int(total_days / frequency_days)` are
  modelled by returning `Except.error`; a normal return is `Except.ok`.
* Python's stable `list.sort(key=...)` is modelled by `List.mergeSort` over
  the lexicographic order on the key `(tasted, random tiebreak)`; the key
  function is evaluated once per element in list order, as CPython does.
* `collection` is passed as the bottle list itself (the `'bottles' not in
  collection` guard for non-dict inputs sits outside the model); `start_date`
  is passed as an already-parsed date.
-/

namespace DramPlanner

/-- A bottle record as read by `generate_schedule`: `id` and `name` are
accessed with mandatory indexing, the remaining fields through `dict.get`
with the defaults shown. -/
structure Bottle where
  id : Nat
  name : String
  category : Option String := none
  tasted : Bool := false
  abv : Rat := 0
deriving Repr, DecidableEq

/-- The `user_preferences` section of the configuration dictionary; a `none`
field models an absent key. -/
structure Config where
  tasting_frequency : Option String := none
  custom_interval_days : Option Int := none
  preferred_days : Option (List String) := none
  avoid_dates : Option (List Int) := none
  category_preferences : Option (List (String × Rat)) := none
  seasonal_adjustments : Option Bool := none
  min_days_between_category : Option Int := none
deriving Repr

/-- `config.get_tasting_frequency_days`: the `frequency_map` lookup with
default 7. -/
def get_tasting_frequency_days (config : Config) : Int :=
  let frequency := config.tasting_frequency.getD "weekly"
  if frequency = "weekly" then 7
  else if frequency = "bi-weekly" then 14
  else if frequency = "monthly" then 30
  else if frequency = "custom" then config.custom_interval_days.getD 7
  else 7

/-- `config.get_preferred_days`. -/
def get_preferred_days (config : Config) : List String :=
  config.preferred_days.getD []

/-- `config.get_avoid_dates`. -/
def get_avoid_dates (config : Config) : List Int :=
  config.avoid_dates.getD []

/-- `config.get_category_preferences`. -/
def get_category_preferences (config : Config) : List (String × Rat) :=
  config.category_preferences.getD []

/-- `config.get_seasonal_adjustments`. -/
def get_seasonal_adjustments (config : Config) : Bool :=
  config.seasonal_adjustments.getD false

/-- `config.get_min_days_between_category`. -/
def get_min_days_between_category (config : Config) : Int :=
  config.min_days_between_category.getD 0

/-- ASCII lowercase of one character. -/
def char_lower (c : Char) : Char :=
  if 'A' ≤ c ∧ c ≤ 'Z' then Char.ofNat (c.toNat + 32) else c

/-- Python's `str.lower()`, restricted to ASCII: every category and day-name
string the generator handles is ASCII. -/
def str_lower (s : String) : String := ⟨s.data.map char_lower⟩

/-- `datetime.weekday()` for a date given as a day number (Monday = 0). -/
def weekday (date : Int) : Int := date % 7

/-- The `day_map` dictionary of `adjust_to_preferred_day`, with the `-1`
default of `day_map.get(day.lower(), -1)`; the argument is already
lowercased by the caller. -/
def day_map (day : String) : Int :=
  if day = "monday" then 0
  else if day = "tuesday" then 1
  else if day = "wednesday" then 2
  else if day = "thursday" then 3
  else if day = "friday" then 4
  else if day = "saturday" then 5
  else if day = "sunday" then 6
  else -1

/-- The resolved preferred weekday numbers: mapped through `day_map` and
filtered to the recognized (non-negative) ones. -/
def preferred_weekdays (preferred_days : List String) : List Int :=
  (preferred_days.map (fun day => day_map (str_lower day))).filter (fun d => 0 ≤ d)

/-- The scan of `adjust_to_preferred_day` over the preferred weekdays,
carrying the running `min_diff` (initially 7).  The early `return date` on a
forward distance of 0 is encoded by returning 0, since adding 0 days is the
identity and every other branch yields a positive distance. -/
def find_min_diff (current_weekday : Int) : List Int → Int → Int
  | [], min_diff => min_diff
  | preferred :: rest, min_diff =>
    let diff := (preferred - current_weekday) % 7
    if diff = 0 then 0
    else if diff < min_diff then find_min_diff current_weekday rest diff
    else find_min_diff current_weekday rest min_diff

/-- `schedule_generator.adjust_to_preferred_day`. -/
def adjust_to_preferred_day (date : Int) (preferred_days : List String) : Int :=
  if preferred_days.isEmpty then date
  else
    let pw := preferred_weekdays preferred_days
    if pw.isEmpty then date
    else date + find_min_diff (weekday date) pw 7

/-- `schedule_generator.is_avoid_date`. -/
def is_avoid_date (date : Int) (avoid_dates : List Int) : Bool :=
  if avoid_dates.isEmpty then false else avoid_dates.contains date

/-- The blackout-avoidance `while` loop of `generate_schedule`: advance one
day at a time (re-snapping to a preferred day after each advance) while the
date is avoided, for at most the given number of remaining attempts. -/
def avoid_date_loop (preferred_days : List String) (avoid_dates : List Int) :
    Nat → Int → Int
  | 0, current_date => current_date
  | attempts_left + 1, current_date =>
    if is_avoid_date current_date avoid_dates then
      let d := current_date + 1
      let d := if preferred_days.isEmpty then d
               else adjust_to_preferred_day d preferred_days
      avoid_date_loop preferred_days avoid_dates attempts_left d
    else current_date

def light_categories : List String :=
  ["gin", "vodka", "rum", "tequila", "clear spirits"]

def heavy_categories : List String :=
  ["bourbon", "scotch", "whiskey", "whisky", "rye"]

/-- Python's substring containment `needle in haystack`. -/
def substring_in (needle haystack : String) : Bool :=
  decide (List.IsInfix needle.toList haystack.toList)

/-- `schedule_generator.get_seasonal_weight`; the calendar month of the date
is supplied by the caller's month function. -/
def get_seasonal_weight (category : String) (month : Nat)
    (seasonal_enabled : Bool) : Rat :=
  if !seasonal_enabled then 1
  else
    let category_lower := str_lower category
    if month = 6 ∨ month = 7 ∨ month = 8 then
      if light_categories.any (fun light => substring_in light category_lower) then
        3/2
      else if heavy_categories.any (fun heavy => substring_in heavy category_lower) then
        7/10
      else 1
    else if month = 12 ∨ month = 1 ∨ month = 2 then
      if heavy_categories.any (fun heavy => substring_in heavy category_lower) then
        3/2
      else if light_categories.any (fun light => substring_in light category_lower) then
        7/10
      else 1
    else 1

/-- The per-bottle weight of the pool builder: the category preference
(default 1.0) doubled for untasted bottles. -/
def bottle_weight (category_prefs : List (String × Rat)) (bottle : Bottle) : Rat :=
  let category := str_lower (bottle.category.getD "other")
  let weight := match category_prefs.lookup category with
    | some w => w
    | none => 1
  if !bottle.tasted then weight * 2 else weight

/-- Python's slice `l[:k]`, defined for negative bounds as well. -/
def py_slice_to (k : Int) (l : List α) : List α :=
  if 0 ≤ k then l.take k.toNat
  else l.take (l.length - min l.length (-k).toNat)

/-- The injected random generator: the two `random.shuffle` calls, the
`random.choices` draw, and the stream of `random.random()` sort tiebreaks. -/
structure RandomSource where
  shuffle_pool : List (Bottle × Rat) → List (Bottle × Rat)
  choices : List Bottle → List Rat → Int → List Bottle
  shuffle_selected : List Bottle → List Bottle
  sort_key : Nat → Rat

/-- The facts every outcome of the ambient generator satisfies: shuffles
permute their input, and `choices` returns `max k 0` members of a non-empty
population. -/
structure RandomSource.Valid (rnd : RandomSource) : Prop where
  shuffle_pool_perm : ∀ l, (rnd.shuffle_pool l).Perm l
  choices_length : ∀ pop w k, pop ≠ [] → (rnd.choices pop w k).length = k.toNat
  choices_mem : ∀ pop w k b, b ∈ rnd.choices pop w k → b ∈ pop
  shuffle_selected_perm : ∀ l, (rnd.shuffle_selected l).Perm l

/-- Ranking of the boolean sort key `x.get('tasted', False)` (False < True). -/
def tasted_rank (bottle : Bottle) : Nat := if bottle.tasted then 1 else 0

/-- The lexicographic order on the sort key `(tasted, random tiebreak)` used
by `selected_bottles.sort`. -/
def sort_le (a b : Bottle × Rat) : Bool :=
  decide (tasted_rank a.1 < tasted_rank b.1) ||
    (decide (tasted_rank a.1 = tasted_rank b.1) && decide (a.2 ≤ b.2))

/-- The sort-key order as a relation, for the stable sort.  Python's stable
`list.sort(key=...)` is modelled by the stable `List.insertionSort` over
this total preorder: every stable sort computes the same list. -/
def sort_rel (a b : Bottle × Rat) : Prop := sort_le a b = true

instance : DecidableRel sort_rel := fun a b =>
  inferInstanceAs (Decidable (sort_le a b = true))

/-- The per-element evaluation of the sort key: `random.random()` is drawn
once per list element, in list order. -/
def attach_keys (key : Nat → Rat) : List Bottle → Nat → List (Bottle × Rat)
  | [], _ => []
  | b :: rest, i => (b, key i) :: attach_keys key rest (i + 1)

/-- One schedule entry, as appended to `schedule`. -/
structure Entry where
  week : Nat
  date : Int
  bottle_id : Nat
  bottle_name : String
  category : String
  abv : Rat
  is_repeat : Bool
deriving Repr, DecidableEq

/-- The category-spacing deferral of one loop iteration: if the constraint is
on and the category has a recorded last date less than
`min_days_between_category` days back, advance to that last date plus the
constraint. -/
def category_spacing_date (min_days_between_category : Int)
    (last_category_date : List (String × Int)) (category : String)
    (current_date : Int) : Int :=
  if min_days_between_category > 0 then
    match last_category_date.lookup category with
    | some last =>
      if current_date - last < min_days_between_category then
        last + min_days_between_category
      else current_date
    | none => current_date
  else current_date

/-- The three date adjustments applied to `current_date` inside one loop
iteration of `generate_schedule`: category-spacing deferral, preferred-day
snapping, blackout avoidance (at most 30 attempts). -/
def next_entry_date (min_days_between_category : Int)
    (preferred_days : List String) (avoid_dates : List Int)
    (last_category_date : List (String × Int)) (category : String)
    (current_date : Int) : Int :=
  let d1 := category_spacing_date min_days_between_category
    last_category_date category current_date
  let d2 := if preferred_days.isEmpty then d1
            else adjust_to_preferred_day d1 preferred_days
  avoid_date_loop preferred_days avoid_dates 30 d2

/-- The date-assignment loop of `generate_schedule`: walks the selected
bottles carrying the `current_date` cursor, the per-category
`last_category_date` map (a cons-on-update association list looked up at the
first match, like a dict), and the week counter. -/
def schedule_loop (month : Int → Nat) (frequency_days : Int)
    (min_days_between_category : Int) (preferred_days : List String)
    (avoid_dates : List Int) (seasonal_enabled : Bool) :
    List Bottle → Int → List (String × Int) → Nat → List Entry
  | [], _, _, _ => []
  | bottle :: rest, current_date, last_category_date, week_num =>
    let category := str_lower (bottle.category.getD "other")
    let _seasonal_weight :=
      get_seasonal_weight category (month current_date) seasonal_enabled
    let d3 := next_entry_date min_days_between_category preferred_days
      avoid_dates last_category_date category current_date
    { week := week_num, date := d3, bottle_id := bottle.id,
      bottle_name := bottle.name, category := bottle.category.getD "other",
      abv := bottle.abv, is_repeat := bottle.tasted } ::
      schedule_loop month frequency_days min_days_between_category
        preferred_days avoid_dates seasonal_enabled rest (d3 + frequency_days)
        ((category, d3) :: last_category_date) (week_num + 1)

/-- The weighted bottle pool: untasted bottles first, then tasted ones, each
paired with its selection weight. -/
def weighted_pool (category_prefs : List (String × Rat))
    (bottles : List Bottle) : List (Bottle × Rat) :=
  (bottles.filter (fun b => !b.tasted) ++ bottles.filter (fun b => b.tasted)).map
    (fun b => (b, bottle_weight category_prefs b))

/-- The repeat-fill branch (`total_bottles <= total_tastings`): extend the
pool with up to `needed_repeats` entries of the shuffled repeat pool (the
tasted candidates, or the whole pool if none are tasted). -/
def fill_pool (rnd : RandomSource) (all_bottles : List (Bottle × Rat))
    (needed_repeats : Int) : List (Bottle × Rat) :=
  let repeat_pool := all_bottles.filter (fun bw => bw.1.tasted)
  let repeat_pool := if repeat_pool.isEmpty then all_bottles else repeat_pool
  all_bottles ++ py_slice_to needed_repeats (rnd.shuffle_pool repeat_pool)

/-- The truncation branch (`total_bottles > total_tastings`): keep up to
`total_tastings` untasted candidates, topped up from the tasted ones. -/
def truncate_pool (all_bottles : List (Bottle × Rat))
    (total_tastings : Int) : List (Bottle × Rat) :=
  let untasted_weighted := all_bottles.filter (fun bw => !bw.1.tasted)
  let tasted_weighted := all_bottles.filter (fun bw => bw.1.tasted)
  if (untasted_weighted.length : Int) ≥ total_tastings then
    py_slice_to total_tastings untasted_weighted
  else
    untasted_weighted ++
      py_slice_to (total_tastings - (untasted_weighted.length : Int))
        tasted_weighted

/-- The body of `generate_schedule` after preference resolution (from the
`total_bottles == 0` check onward). -/
def generate_schedule_core (month : Int → Nat) (rnd : RandomSource)
    (bottles : List Bottle) (start_date : Int) (weeks : Int)
    (frequency_days : Int) (preferred_days : List String)
    (avoid_dates : List Int) (category_prefs : List (String × Rat))
    (seasonal_enabled : Bool) (min_days_between_category : Int) :
    Except String (List Entry) :=
  if bottles.length = 0 then .ok []
  else
    let all_bottles := weighted_pool category_prefs bottles
    let total_days := weeks * 7
    if frequency_days = 0 then .error "ZeroDivisionError"
    else
      let total_tastings : Int := Int.tdiv total_days frequency_days
      let pool :=
        if (bottles.length : Int) ≤ total_tastings then
          fill_pool rnd all_bottles (total_tastings - (bottles.length : Int))
        else
          truncate_pool all_bottles total_tastings
      let population := pool.map (fun bw => bw.1)
      let weights := pool.map (fun bw => bw.2)
      if population.isEmpty then .error "IndexError"
      else if weights.sum ≤ 0 then .error "ValueError"
      else
        let selected := rnd.choices population weights
          (min total_tastings (pool.length : Int))
        let shuffled := rnd.shuffle_selected selected
        let sorted :=
          ((attach_keys rnd.sort_key shuffled 0).insertionSort sort_rel).map
            (fun bk => bk.1)
        .ok (schedule_loop month frequency_days min_days_between_category
          preferred_days avoid_dates seasonal_enabled sorted start_date [] 1)

/-- `schedule_generator.generate_schedule`: validate the horizon, resolve the
preferences, and run the core. -/
def generate_schedule (month : Int → Nat) (rnd : RandomSource)
    (collection : List Bottle) (start_date : Int) (weeks : Int)
    (config : Config) : Except String (List Entry) :=
  if weeks ≤ 0 then .ok []
  else
    generate_schedule_core month rnd collection start_date weeks
      (get_tasting_frequency_days config) (get_preferred_days config)
      (get_avoid_dates config) (get_category_preferences config)
      (get_seasonal_adjustments config) (get_min_days_between_category config)

/-- A concrete outcome of the random generator: shuffles leave the list in
place, `choices` draws the first population member every time (an outcome of
positive probability under any positive weights), and every sort tiebreak
is 0. -/
def fixedSource : RandomSource where
  shuffle_pool := fun l => l
  choices := fun pop _ k =>
    match pop with
    | [] => []
    | p :: _ => List.replicate k.toNat p
  shuffle_selected := fun l => l
  sort_key := fun _ => 0

/-- The untasted bourbon of the repository's test fixture. -/
def bottleA : Bottle := { id := 1, name := "Test Bourbon", category := some "bourbon" }

/-- The untasted scotch of the repository's test fixture. -/
def bottleB : Bottle := { id := 2, name := "Test Scotch", category := some "scotch" }

/-- The tasted irish of the repository's test fixture. -/
def bottleC : Bottle :=
  { id := 3, name := "Test Irish", category := some "irish", tasted := true }

/-- A month function placing every date in January. -/
def month_jan : Int → Nat := fun _ => 1

/-- A configuration preferring Fridays. -/
def cfgFriday : Config := { preferred_days := some ["Friday"] }

/-- A configuration with a one-day minimum category spacing. -/
def cfgSpacing : Config := { min_days_between_category := some 1 }

theorem fixedSource_valid : fixedSource.Valid where
  shuffle_pool_perm := fun _ => List.Perm.refl _
  choices_length := by
    intro pop w k hpop
    match pop with
    | [] => exact absurd rfl hpop
    | p :: rest => simp [fixedSource]
  choices_mem := by
    intro pop w k b hb
    match pop with
    | [] => simp [fixedSource] at hb
    | p :: rest =>
      simp only [fixedSource, List.mem_replicate] at hb
      exact hb.2 ▸ List.mem_cons_self p rest
  shuffle_selected_perm := fun _ => List.Perm.refl _

/-! ### Properties of the preferred-day snapping -/

theorem find_min_diff_nonneg (cw : Int) (l : List Int) (m : Int) (hm : 0 ≤ m) :
    0 ≤ find_min_diff cw l m := by
  induction l generalizing m with
  | nil => simpa [find_min_diff] using hm
  | cons p rest ih =>
    simp only [find_min_diff]
    split_ifs with h0 hlt
    · exact le_refl 0
    · exact ih _ (Int.emod_nonneg _ (by norm_num))
    · exact ih _ hm

theorem find_min_diff_le_init (cw : Int) (l : List Int) (m : Int) (hm : 0 ≤ m) :
    find_min_diff cw l m ≤ m := by
  induction l generalizing m with
  | nil => simp [find_min_diff]
  | cons p rest ih =>
    simp only [find_min_diff]
    split_ifs with h0 hlt
    · exact hm
    · exact (ih _ (Int.emod_nonneg _ (by norm_num))).trans hlt.le
    · exact ih _ hm

theorem find_min_diff_le_diff (cw : Int) (l : List Int) (m : Int) (hm : 0 ≤ m)
    (p : Int) (hp : p ∈ l) : find_min_diff cw l m ≤ (p - cw) % 7 := by
  induction l generalizing m with
  | nil => cases hp
  | cons q rest ih =>
    rcases List.mem_cons.mp hp with rfl | hp
    · simp only [find_min_diff]
      split_ifs with h0 hlt
      · omega
      · exact find_min_diff_le_init _ _ _ (Int.emod_nonneg _ (by norm_num))
      · exact (find_min_diff_le_init _ _ _ hm).trans (by omega)
    · simp only [find_min_diff]
      split_ifs with h0 hlt
      · exact Int.emod_nonneg _ (by norm_num)
      · exact ih _ (Int.emod_nonneg _ (by norm_num)) hp
      · exact ih _ hm hp

theorem find_min_diff_attains (cw : Int) (l : List Int) (m : Int) :
    (∃ p ∈ l, find_min_diff cw l m = (p - cw) % 7) ∨ find_min_diff cw l m = m := by
  induction l generalizing m with
  | nil => exact Or.inr rfl
  | cons q rest ih =>
    simp only [find_min_diff]
    split_ifs with h0 hlt
    · exact Or.inl ⟨q, List.mem_cons_self _ _, h0.symm⟩
    · rcases ih ((q - cw) % 7) with ⟨p, hp, he⟩ | he
      · exact Or.inl ⟨p, List.mem_cons_of_mem _ hp, he⟩
      · exact Or.inl ⟨q, List.mem_cons_self _ _, he⟩
    · rcases ih m with ⟨p, hp, he⟩ | he
      · exact Or.inl ⟨p, List.mem_cons_of_mem _ hp, he⟩
      · exact Or.inr he

theorem find_min_diff_le_six (cw : Int) (l : List Int) (hl : l ≠ []) :
    find_min_diff cw l 7 ≤ 6 := by
  cases l with
  | nil => exact absurd rfl hl
  | cons q rest =>
    have h7 : (q - cw) % 7 < 7 := Int.emod_lt_of_pos _ (by norm_num)
    have hd := find_min_diff_le_diff cw (q :: rest) 7 (by norm_num) q
      (List.mem_cons_self _ _)
    omega

theorem day_map_le_six (s : String) : day_map s ≤ 6 := by
  unfold day_map
  split_ifs <;> norm_num

theorem mem_preferred_weekdays_bounds (pd : List String) (p : Int)
    (hp : p ∈ preferred_weekdays pd) : 0 ≤ p ∧ p ≤ 6 := by
  unfold preferred_weekdays at hp
  rw [List.mem_filter] at hp
  obtain ⟨hmem, hpos⟩ := hp
  obtain ⟨s, _, rfl⟩ := List.mem_map.mp hmem
  exact ⟨by simpa using hpos, day_map_le_six _⟩

theorem preferred_weekdays_ne_nil_of_mem {pd : List String} {x : Int}
    (h : x ∈ preferred_weekdays pd) : pd ≠ [] := by
  intro hnil
  subst hnil
  simp [preferred_weekdays] at h

/-- Zeta-reduced form of `adjust_to_preferred_day`. -/
theorem adjust_eq (date : Int) (pd : List String) :
    adjust_to_preferred_day date pd =
      if pd.isEmpty then date
      else if (preferred_weekdays pd).isEmpty then date
      else date + find_min_diff (weekday date) (preferred_weekdays pd) 7 := rfl

theorem le_adjust (date : Int) (pd : List String) :
    date ≤ adjust_to_preferred_day date pd := by
  rw [adjust_eq]
  split_ifs with h1 h2
  · exact le_refl date
  · exact le_refl date
  · have := find_min_diff_nonneg (weekday date) (preferred_weekdays pd) 7
      (by norm_num)
    omega

theorem adjust_le_add_six (date : Int) (pd : List String) :
    adjust_to_preferred_day date pd ≤ date + 6 := by
  rw [adjust_eq]
  split_ifs with h1 h2
  · omega
  · omega
  · have := find_min_diff_le_six (weekday date) (preferred_weekdays pd)
      (by simpa [List.isEmpty_iff] using h2)
    omega

theorem weekday_adjust_mem (date : Int) (pd : List String)
    (hpw : preferred_weekdays pd ≠ []) :
    weekday (adjust_to_preferred_day date pd) ∈ preferred_weekdays pd := by
  rw [adjust_eq]
  have hpd : ¬ pd.isEmpty := by
    intro h
    rw [List.isEmpty_iff] at h
    subst h
    simp [preferred_weekdays] at hpw
  rw [if_neg hpd, if_neg (by simpa [List.isEmpty_iff] using hpw)]
  rcases find_min_diff_attains (weekday date) (preferred_weekdays pd) 7 with
    ⟨p, hp, he⟩ | he
  · obtain ⟨h0p, h6p⟩ := mem_preferred_weekdays_bounds pd p hp
    have hw : weekday
        (date + find_min_diff (weekday date) (preferred_weekdays pd) 7) = p := by
      rw [he]
      unfold weekday
      omega
    rw [hw]
    exact hp
  · have := find_min_diff_le_six (weekday date) (preferred_weekdays pd) hpw
    omega

theorem adjust_eq_self (date : Int) (pd : List String)
    (h : weekday date ∈ preferred_weekdays pd) :
    adjust_to_preferred_day date pd = date := by
  rw [adjust_eq]
  have hpd : ¬ pd.isEmpty := by
    simpa [List.isEmpty_iff] using preferred_weekdays_ne_nil_of_mem h
  rw [if_neg hpd, if_neg (by
    simp only [List.isEmpty_iff]
    intro hp
    rw [hp] at h
    cases h)]
  have h1 : find_min_diff (weekday date) (preferred_weekdays pd) 7
      ≤ (weekday date - weekday date) % 7 :=
    find_min_diff_le_diff _ _ 7 (by norm_num) _ h
  have h2 : 0 ≤ find_min_diff (weekday date) (preferred_weekdays pd) 7 :=
    find_min_diff_nonneg _ _ 7 (by norm_num)
  omega

theorem adjust_minimal (date k : Int) (pd : List String)
    (h1 : date ≤ k) (h2 : k < adjust_to_preferred_day date pd) :
    weekday k ∉ preferred_weekdays pd := by
  intro hk
  have hpw : preferred_weekdays pd ≠ [] := by
    intro hp
    rw [hp] at hk
    cases hk
  have hpd : ¬ pd.isEmpty := by
    simpa [List.isEmpty_iff] using preferred_weekdays_ne_nil_of_mem hk
  rw [adjust_eq, if_neg hpd,
    if_neg (by simpa [List.isEmpty_iff] using hpw)] at h2
  have hle : find_min_diff (weekday date) (preferred_weekdays pd) 7
      ≤ (weekday k - weekday date) % 7 :=
    find_min_diff_le_diff _ _ 7 (by norm_num) _ hk
  have hsix : find_min_diff (weekday date) (preferred_weekdays pd) 7 ≤ 6 :=
    find_min_diff_le_six _ _ hpw
  unfold weekday at hle h2
  omega

/-! ### Properties of the blackout-avoidance loop -/

theorem le_avoid_date_loop (pd : List String) (ad : List Int) (fuel : Nat)
    (d : Int) : d ≤ avoid_date_loop pd ad fuel d := by
  induction fuel generalizing d with
  | zero => simp [avoid_date_loop]
  | succ n ih =>
    simp only [avoid_date_loop]
    split
    · refine le_trans ?_ (ih _)
      split
      · omega
      · exact le_trans (by omega) (le_adjust (d + 1) pd)
    · exact le_refl d

theorem avoid_date_loop_nil (pd : List String) (fuel : Nat) (d : Int) :
    avoid_date_loop pd [] fuel d = d := by
  cases fuel <;> simp [avoid_date_loop, is_avoid_date]

/-! ### Properties of the per-entry date computation -/

/-- Zeta-reduced form of `next_entry_date`. -/
theorem next_entry_date_eq (md : Int) (pd : List String) (ad : List Int)
    (m : List (String × Int)) (cat : String) (cur : Int) :
    next_entry_date md pd ad m cat cur =
      avoid_date_loop pd ad 30
        (if pd.isEmpty then category_spacing_date md m cat cur
         else adjust_to_preferred_day (category_spacing_date md m cat cur) pd) :=
  rfl

theorem le_category_spacing_date (md : Int) (m : List (String × Int))
    (cat : String) (cur : Int) : cur ≤ category_spacing_date md m cat cur := by
  unfold category_spacing_date
  split_ifs with hmd
  · cases hlk : m.lookup cat with
    | none => simp
    | some last =>
      simp only
      split_ifs with hd <;> omega
  · exact le_refl cur

theorem category_spacing_date_spacing (md : Int) (m : List (String × Int))
    (cat : String) (cur last : Int) (hmd : 0 < md)
    (hlk : m.lookup cat = some last) :
    last + md ≤ category_spacing_date md m cat cur := by
  unfold category_spacing_date
  rw [if_pos hmd, hlk]
  simp only
  split_ifs with hd <;> omega

theorem le_next_entry_date (md : Int) (pd : List String) (ad : List Int)
    (m : List (String × Int)) (cat : String) (cur : Int) :
    cur ≤ next_entry_date md pd ad m cat cur := by
  rw [next_entry_date_eq]
  refine le_trans (le_category_spacing_date md m cat cur)
    (le_trans ?_ (le_avoid_date_loop pd ad 30 _))
  split_ifs with hpd
  · exact le_refl _
  · exact le_adjust _ pd

theorem next_entry_date_spacing (md : Int) (pd : List String) (ad : List Int)
    (m : List (String × Int)) (cat : String) (cur last : Int)
    (hmd : 0 < md) (hlk : m.lookup cat = some last) :
    last + md ≤ next_entry_date md pd ad m cat cur := by
  rw [next_entry_date_eq]
  refine le_trans (category_spacing_date_spacing md m cat cur last hmd hlk)
    (le_trans ?_ (le_avoid_date_loop pd ad 30 _))
  split_ifs with hpd
  · exact le_refl _
  · exact le_adjust _ pd

theorem weekday_next_entry_date_mem (md : Int) (pd : List String)
    (m : List (String × Int)) (cat : String) (cur : Int)
    (hpw : preferred_weekdays pd ≠ []) :
    weekday (next_entry_date md pd [] m cat cur) ∈ preferred_weekdays pd := by
  have hpd : ¬ pd.isEmpty := by
    simp only [List.isEmpty_iff]
    intro h
    rw [h] at hpw
    simp [preferred_weekdays] at hpw
  rw [next_entry_date_eq, avoid_date_loop_nil, if_neg hpd]
  exact weekday_adjust_mem _ pd hpw

/-! ### Properties of the date-assignment loop -/

theorem lookup_cons_self {β : Type} (k : String) (v : β)
    (m : List (String × β)) : ((k, v) :: m).lookup k = some v := by
  simp [List.lookup]

theorem lookup_cons_ne {β : Type} (k k2 : String) (v : β)
    (m : List (String × β)) (h : k2 ≠ k) :
    ((k, v) :: m).lookup k2 = m.lookup k2 := by
  simp only [List.lookup]
  rw [beq_eq_false_iff_ne.mpr h]

/-- One unfolding of `schedule_loop`. -/
theorem schedule_loop_cons (month : Int → Nat) (fd md : Int)
    (pd : List String) (ad : List Int) (se : Bool) (b : Bottle)
    (rest : List Bottle) (cur : Int) (m : List (String × Int)) (wk : Nat) :
    schedule_loop month fd md pd ad se (b :: rest) cur m wk =
      { week := wk,
        date := next_entry_date md pd ad m (str_lower (b.category.getD "other")) cur,
        bottle_id := b.id, bottle_name := b.name,
        category := b.category.getD "other", abv := b.abv,
        is_repeat := b.tasted } ::
      schedule_loop month fd md pd ad se rest
        (next_entry_date md pd ad m (str_lower (b.category.getD "other")) cur + fd)
        ((str_lower (b.category.getD "other"),
          next_entry_date md pd ad m (str_lower (b.category.getD "other")) cur) :: m)
        (wk + 1) := rfl

theorem schedule_loop_length (month : Int → Nat) (fd md : Int)
    (pd : List String) (ad : List Int) (se : Bool) (bs : List Bottle)
    (cur : Int) (m : List (String × Int)) (wk : Nat) :
    (schedule_loop month fd md pd ad se bs cur m wk).length = bs.length := by
  induction bs generalizing cur m wk with
  | nil => rfl
  | cons b rest ih =>
    rw [schedule_loop_cons, List.length_cons, ih, List.length_cons]

theorem schedule_loop_mem (month : Int → Nat) (fd md : Int)
    (pd : List String) (ad : List Int) (se : Bool) (bs : List Bottle)
    (cur : Int) (m : List (String × Int)) (wk : Nat) (e : Entry)
    (he : e ∈ schedule_loop month fd md pd ad se bs cur m wk) :
    ∃ b ∈ bs, e.bottle_id = b.id ∧ e.is_repeat = b.tasted ∧
      e.category = b.category.getD "other" := by
  induction bs generalizing cur m wk with
  | nil => cases he
  | cons b rest ih =>
    rw [schedule_loop_cons] at he
    rcases List.mem_cons.mp he with rfl | he2
    · exact ⟨b, List.mem_cons_self _ _, rfl, rfl, rfl⟩
    · obtain ⟨b2, hb2, h⟩ := ih _ _ _ he2
      exact ⟨b2, List.mem_cons_of_mem _ hb2, h⟩

theorem schedule_loop_pairwise_repeat (month : Int → Nat) (fd md : Int)
    (pd : List String) (ad : List Int) (se : Bool) (bs : List Bottle)
    (cur : Int) (m : List (String × Int)) (wk : Nat)
    (hbs : bs.Pairwise (fun x y => x.tasted = true → y.tasted = true)) :
    (schedule_loop month fd md pd ad se bs cur m wk).Pairwise
      (fun e1 e2 => e1.is_repeat = true → e2.is_repeat = true) := by
  induction bs generalizing cur m wk with
  | nil => exact List.Pairwise.nil
  | cons b rest ih =>
    rw [List.pairwise_cons] at hbs
    rw [schedule_loop_cons]
    refine List.Pairwise.cons ?_ (ih _ _ _ hbs.2)
    intro e he hrep
    obtain ⟨b2, hb2, _, hr, _⟩ :=
      schedule_loop_mem month fd md pd ad se rest _ _ _ e he
    rw [hr]
    exact hbs.1 b2 hb2 hrep

theorem schedule_loop_chain (month : Int → Nat) (fd md : Int)
    (pd : List String) (ad : List Int) (se : Bool) (hfd : 1 ≤ fd) :
    ∀ (bs : List Bottle) (cur : Int) (m : List (String × Int)) (wk : Nat),
      (schedule_loop month fd md pd ad se bs cur m wk).Chain'
        (fun e1 e2 => e1.date ≤ e2.date) ∧
      ∀ e ∈ schedule_loop month fd md pd ad se bs cur m wk, cur ≤ e.date := by
  intro bs
  induction bs with
  | nil =>
    intro cur m wk
    exact ⟨List.chain'_nil, by intro e he; cases he⟩
  | cons b rest ih =>
    intro cur m wk
    rw [schedule_loop_cons]
    have hcurD : cur ≤
        next_entry_date md pd ad m (str_lower (b.category.getD "other")) cur :=
      le_next_entry_date md pd ad m _ cur
    obtain ⟨hchain, hge⟩ := ih
      (next_entry_date md pd ad m (str_lower (b.category.getD "other")) cur + fd)
      ((str_lower (b.category.getD "other"),
        next_entry_date md pd ad m (str_lower (b.category.getD "other")) cur) :: m)
      (wk + 1)
    constructor
    · rw [List.chain'_cons']
      refine ⟨?_, hchain⟩
      intro e2 he2
      have hmem := List.mem_of_mem_head? he2
      have := hge e2 hmem
      simp only
      omega
    · intro e he
      rcases List.mem_cons.mp he with rfl | he2
      · exact hcurD
      · have := hge e he2
        omega

theorem schedule_loop_spacing (month : Int → Nat) (fd md : Int)
    (pd : List String) (ad : List Int) (se : Bool) (hmd : 0 < md) :
    ∀ (bs : List Bottle) (cur : Int) (m : List (String × Int)) (wk : Nat),
      (schedule_loop month fd md pd ad se bs cur m wk).Pairwise
        (fun e1 e2 => e1.category = e2.category → e1.date + md ≤ e2.date) ∧
      ∀ e ∈ schedule_loop month fd md pd ad se bs cur m wk,
        ∀ last, m.lookup (str_lower e.category) = some last →
          last + md ≤ e.date := by
  intro bs
  induction bs with
  | nil =>
    intro cur m wk
    exact ⟨List.Pairwise.nil, by intro e he; cases he⟩
  | cons b rest ih =>
    intro cur m wk
    rw [schedule_loop_cons]
    obtain ⟨hpw, hlk⟩ := ih
      (next_entry_date md pd ad m (str_lower (b.category.getD "other")) cur + fd)
      ((str_lower (b.category.getD "other"),
        next_entry_date md pd ad m (str_lower (b.category.getD "other")) cur) :: m)
      (wk + 1)
    constructor
    · refine List.Pairwise.cons ?_ hpw
      intro e he hcat
      have hcatl : str_lower e.category = str_lower (b.category.getD "other") := by
        simp only at hcat
        rw [← hcat]
      have h1 := hlk e he
        (next_entry_date md pd ad m (str_lower (b.category.getD "other")) cur)
        (by rw [hcatl]; exact lookup_cons_self _ _ _)
      simpa using h1
    · intro e he last hl
      rcases List.mem_cons.mp he with rfl | he2
      · exact next_entry_date_spacing md pd ad m _ cur last hmd hl
      · by_cases hc : str_lower e.category = str_lower (b.category.getD "other")
        · have h2 := hlk e he2
            (next_entry_date md pd ad m (str_lower (b.category.getD "other")) cur)
            (by rw [hc]; exact lookup_cons_self _ _ _)
          have h3 : last + md ≤
              next_entry_date md pd ad m (str_lower (b.category.getD "other")) cur :=
            next_entry_date_spacing md pd ad m _ cur last hmd (hc ▸ hl)
          omega
        · exact hlk e he2 last (by rw [lookup_cons_ne _ _ _ _ hc]; exact hl)

theorem schedule_loop_preferred (month : Int → Nat) (fd md : Int)
    (pd : List String) (se : Bool) (hpw : preferred_weekdays pd ≠ []) :
    ∀ (bs : List Bottle) (cur : Int) (m : List (String × Int)) (wk : Nat),
      ∀ e ∈ schedule_loop month fd md pd [] se bs cur m wk,
        weekday e.date ∈ preferred_weekdays pd := by
  intro bs
  induction bs with
  | nil =>
    intro cur m wk e he
    cases he
  | cons b rest ih =>
    intro cur m wk e he
    rw [schedule_loop_cons] at he
    rcases List.mem_cons.mp he with rfl | he2
    · exact weekday_next_entry_date_mem md pd m _ cur hpw
    · exact ih _ _ _ e he2

theorem schedule_loop_seasonal (month : Int → Nat) (fd md : Int)
    (pd : List String) (ad : List Int) (se1 se2 : Bool) :
    ∀ (bs : List Bottle) (cur : Int) (m : List (String × Int)) (wk : Nat),
      schedule_loop month fd md pd ad se1 bs cur m wk =
        schedule_loop month fd md pd ad se2 bs cur m wk := by
  intro bs
  induction bs with
  | nil => intro cur m wk; rfl
  | cons b rest ih =>
    intro cur m wk
    rw [schedule_loop_cons, schedule_loop_cons, ih]

/-! ### Properties of the selection plumbing -/

theorem attach_keys_length (key : Nat → Rat) (l : List Bottle) (i : Nat) :
    (attach_keys key l i).length = l.length := by
  induction l generalizing i with
  | nil => rfl
  | cons b rest ih => simp [attach_keys, ih]

theorem attach_keys_mem (key : Nat → Rat) (l : List Bottle) (i : Nat)
    (p : Bottle × Rat) (hp : p ∈ attach_keys key l i) : p.1 ∈ l := by
  induction l generalizing i with
  | nil => cases hp
  | cons b rest ih =>
    rcases List.mem_cons.mp hp with rfl | hp2
    · exact List.mem_cons_self _ _
    · exact List.mem_cons_of_mem _ (ih _ hp2)

theorem sort_le_trans : ∀ a b c : Bottle × Rat,
    sort_le a b = true → sort_le b c = true → sort_le a c = true := by
  intro a b c hab hbc
  simp only [sort_le, Bool.or_eq_true, Bool.and_eq_true, decide_eq_true_eq]
    at hab hbc ⊢
  rcases hab with h1 | ⟨h1, h1r⟩ <;> rcases hbc with h2 | ⟨h2, h2r⟩
  · exact Or.inl (h1.trans h2)
  · exact Or.inl (lt_of_lt_of_le h1 (le_of_eq h2))
  · exact Or.inl (lt_of_le_of_lt (le_of_eq h1) h2)
  · exact Or.inr ⟨h1.trans h2, h1r.trans h2r⟩

theorem sort_le_total : ∀ a b : Bottle × Rat,
    (sort_le a b || sort_le b a) = true := by
  intro a b
  simp only [sort_le, Bool.or_eq_true, Bool.and_eq_true, decide_eq_true_eq]
  rcases lt_trichotomy (tasted_rank a.1) (tasted_rank b.1) with h | h | h
  · exact Or.inl (Or.inl h)
  · rcases le_total a.2 b.2 with hr | hr
    · exact Or.inl (Or.inr ⟨h, hr⟩)
    · exact Or.inr (Or.inr ⟨h.symm, hr⟩)
  · exact Or.inr (Or.inl h)

instance : IsTotal (Bottle × Rat) sort_rel :=
  ⟨fun a b => by
    have h := sort_le_total a b
    simp only [Bool.or_eq_true] at h
    exact h⟩

instance : IsTrans (Bottle × Rat) sort_rel :=
  ⟨fun a b c hab hbc => sort_le_trans a b c hab hbc⟩

theorem sort_le_tasted (a b : Bottle × Rat) (h : sort_le a b = true) :
    a.1.tasted = true → b.1.tasted = true := by
  intro ha
  by_contra hb
  rw [Bool.not_eq_true] at hb
  simp [sort_le, tasted_rank, ha, hb] at h

theorem py_slice_to_subset {α : Type} (k : Int) (l : List α) (x : α)
    (hx : x ∈ py_slice_to k l) : x ∈ l := by
  unfold py_slice_to at hx
  split_ifs at hx <;> exact List.take_subset _ _ hx

theorem py_slice_to_length_nonneg {α : Type} (k : Int) (hk : 0 ≤ k)
    (l : List α) : (py_slice_to k l).length = min k.toNat l.length := by
  unfold py_slice_to
  rw [if_pos hk, List.length_take]

/-! ### Properties of the pool construction -/

theorem weighted_pool_mem (category_prefs : List (String × Rat))
    (bottles : List Bottle) (bw : Bottle × Rat)
    (hbw : bw ∈ weighted_pool category_prefs bottles) : bw.1 ∈ bottles := by
  obtain ⟨b, hb, rfl⟩ := List.mem_map.mp hbw
  rcases List.mem_append.mp hb with h | h
  · exact (List.mem_filter.mp h).1
  · exact (List.mem_filter.mp h).1

theorem fill_pool_mem (rnd : RandomSource) (hv : rnd.Valid)
    (ab : List (Bottle × Rat)) (nr : Int) (bw : Bottle × Rat)
    (hbw : bw ∈ fill_pool rnd ab nr) : bw ∈ ab := by
  unfold fill_pool at hbw
  rcases List.mem_append.mp hbw with h | h
  · exact h
  · have h2 := (hv.shuffle_pool_perm _).mem_iff.mp (py_slice_to_subset _ _ _ h)
    split at h2
    · exact h2
    · exact List.mem_of_mem_filter h2

theorem truncate_pool_mem (ab : List (Bottle × Rat)) (t : Int)
    (bw : Bottle × Rat) (hbw : bw ∈ truncate_pool ab t) : bw ∈ ab := by
  simp only [truncate_pool] at hbw
  split at hbw
  · exact List.mem_of_mem_filter (py_slice_to_subset _ _ _ hbw)
  · rcases List.mem_append.mp hbw with h | h
    · exact List.mem_of_mem_filter h
    · exact List.mem_of_mem_filter (py_slice_to_subset _ _ _ h)

/-! ### Properties of the sorted selection -/

theorem sorted_selection_mem (key : Nat → Rat) (shuffled : List Bottle)
    (b : Bottle)
    (hb : b ∈ ((attach_keys key shuffled 0).insertionSort sort_rel).map
      (fun bk => bk.1)) : b ∈ shuffled := by
  obtain ⟨p, hp, rfl⟩ := List.mem_map.mp hb
  exact attach_keys_mem key shuffled 0 p ((List.mem_insertionSort _).mp hp)

theorem sorted_selection_pairwise (key : Nat → Rat) (shuffled : List Bottle) :
    (((attach_keys key shuffled 0).insertionSort sort_rel).map
      (fun bk => bk.1)).Pairwise
      (fun x y => x.tasted = true → y.tasted = true) := by
  have hs := List.sorted_insertionSort sort_rel (attach_keys key shuffled 0)
  exact List.Pairwise.map _ (fun a b hab => sort_le_tasted a b hab) hs

theorem selection_mem_bottles (rnd : RandomSource) (hv : rnd.Valid)
    (pool : List (Bottle × Rat)) (bottles : List Bottle) (k : Int)
    (hpool : ∀ bw ∈ pool, bw.1 ∈ bottles) (b : Bottle)
    (hb : b ∈ ((attach_keys rnd.sort_key (rnd.shuffle_selected
      (rnd.choices (pool.map (fun bw => bw.1)) (pool.map (fun bw => bw.2))
        k)) 0).insertionSort sort_rel).map (fun bk => bk.1)) : b ∈ bottles := by
  have h1 := sorted_selection_mem _ _ _ hb
  have h2 := (hv.shuffle_selected_perm _).mem_iff.mp h1
  have h3 := hv.choices_mem _ _ _ _ h2
  obtain ⟨bw, hbw, rfl⟩ := List.mem_map.mp h3
  exact hpool bw hbw

/-! ### Characterization of a successful run -/

/-- Every successful `generate_schedule` run is either degenerate (empty
output) or the date-assignment loop applied, from `start_date`, an empty
category map, and week 1, to a final candidate list drawn from the
collection and ordered untasted-first. -/
theorem generate_schedule_ok (month : Int → Nat) (rnd : RandomSource)
    (collection : List Bottle) (start_date weeks : Int) (config : Config)
    (l : List Entry) (hv : rnd.Valid)
    (h : generate_schedule month rnd collection start_date weeks config
      = .ok l) :
    l = [] ∨ ∃ bs : List Bottle,
      (∀ b ∈ bs, b ∈ collection) ∧
      bs.Pairwise (fun x y => x.tasted = true → y.tasted = true) ∧
      l = schedule_loop month (get_tasting_frequency_days config)
        (get_min_days_between_category config) (get_preferred_days config)
        (get_avoid_dates config) (get_seasonal_adjustments config)
        bs start_date [] 1 := by
  unfold generate_schedule at h
  split_ifs at h with hw
  · injection h with h2
    exact Or.inl h2.symm
  · simp only [generate_schedule_core] at h
    split_ifs at h
    all_goals
      first
      | (injection h with h2; exact Or.inl h2.symm)
      | exact Except.noConfusion h
      | (injection h with h2
         subst h2
         refine Or.inr ⟨_, ?_, sorted_selection_pairwise _ _, rfl⟩
         intro b hb
         refine selection_mem_bottles rnd hv _ collection _ ?_ b hb
         intro bw hbw
         first
         | exact weighted_pool_mem _ _ _ (fill_pool_mem rnd hv _ _ _ hbw)
         | exact weighted_pool_mem _ _ _ (truncate_pool_mem _ _ _ hbw))

/-! ### Support for the no-exception theorem -/

theorem one_le_tdiv (a b : Int) (h1 : 1 ≤ b) (h2 : b ≤ a) :
    1 ≤ Int.tdiv a b := by
  rw [Int.tdiv_eq_ediv (by omega) (by omega), Int.le_ediv_iff_mul_le (by omega)]
  omega

theorem lookup_mem {β : Type} (m : List (String × β)) (k : String) (v : β)
    (h : m.lookup k = some v) : (k, v) ∈ m := by
  induction m with
  | nil => cases h
  | cons p rest ih =>
    obtain ⟨k2, v2⟩ := p
    simp only [List.lookup] at h
    by_cases he : k = k2
    · subst he
      simp only [beq_self_eq_true] at h
      injection h with h
      subst h
      exact List.mem_cons_self _ _
    · rw [beq_eq_false_iff_ne.mpr he] at h
      exact List.mem_cons_of_mem _ (ih h)

theorem bottle_weight_pos (cp : List (String × Rat))
    (hcp : ∀ p ∈ cp, 0 < p.2) (b : Bottle) : 0 < bottle_weight cp b := by
  have hw : 0 < (match cp.lookup (str_lower (b.category.getD "other")) with
      | some w => w
      | none => (1 : Rat)) := by
    cases hlk : cp.lookup (str_lower (b.category.getD "other")) with
    | none => norm_num
    | some w => exact hcp _ (lookup_mem _ _ _ hlk)
  simp only [bottle_weight]
  split_ifs with ht
  · exact mul_pos hw (by norm_num)
  · exact hw

theorem weighted_pool_weight_pos (cp : List (String × Rat))
    (hcp : ∀ p ∈ cp, 0 < p.2) (bottles : List Bottle) (bw : Bottle × Rat)
    (hbw : bw ∈ weighted_pool cp bottles) : 0 < bw.2 := by
  obtain ⟨b, _, rfl⟩ := List.mem_map.mp hbw
  exact bottle_weight_pos cp hcp b

theorem pool_weights_sum_pos (pool : List (Bottle × Rat)) (hne : pool ≠ [])
    (hpos : ∀ bw ∈ pool, 0 < bw.2) :
    0 < (pool.map (fun bw => bw.2)).sum := by
  refine List.sum_pos _ ?_ ?_
  · intro x hx
    obtain ⟨bw, hbw, rfl⟩ := List.mem_map.mp hx
    exact hpos bw hbw
  · intro hmap
    exact hne (List.map_eq_nil_iff.mp hmap)

theorem weighted_pool_ne_nil (cp : List (String × Rat))
    (bottles : List Bottle) (hb : bottles ≠ []) :
    weighted_pool cp bottles ≠ [] := by
  obtain ⟨b, hbmem⟩ := List.exists_mem_of_ne_nil bottles hb
  intro hnil
  have hmem : (b, bottle_weight cp b) ∈ weighted_pool cp bottles := by
    unfold weighted_pool
    refine List.mem_map.mpr ⟨b, ?_, rfl⟩
    cases hbt : b.tasted with
    | false =>
      exact List.mem_append.mpr
        (Or.inl (List.mem_filter.mpr ⟨hbmem, by simp [hbt]⟩))
    | true =>
      exact List.mem_append.mpr
        (Or.inr (List.mem_filter.mpr ⟨hbmem, by simp [hbt]⟩))
  rw [hnil] at hmem
  cases hmem

theorem fill_pool_ne_nil (rnd : RandomSource) (ab : List (Bottle × Rat))
    (nr : Int) (h : ab ≠ []) : fill_pool rnd ab nr ≠ [] := by
  unfold fill_pool
  intro hnil
  exact h (List.append_eq_nil.mp hnil).1

theorem filter_tasted_lengths (ab : List (Bottle × Rat)) :
    (ab.filter (fun bw => !bw.1.tasted)).length
      + (ab.filter (fun bw => bw.1.tasted)).length = ab.length := by
  induction ab with
  | nil => rfl
  | cons bw rest ih =>
    cases hbt : bw.1.tasted with
    | false => simp [List.filter_cons, hbt, ← ih]; omega
    | true => simp [List.filter_cons, hbt, ← ih]; omega

theorem truncate_pool_ne_nil (ab : List (Bottle × Rat)) (t : Int)
    (ht : 1 ≤ t) (hab : ab ≠ []) : truncate_pool ab t ≠ [] := by
  have hlen := filter_tasted_lengths ab
  have habl : 0 < ab.length := List.length_pos.mpr hab
  simp only [truncate_pool]
  split_ifs with hge
  · intro hnil
    have hl := congrArg List.length hnil
    rw [py_slice_to_length_nonneg _ (by omega)] at hl
    simp only [List.length_nil] at hl
    omega
  · intro hnil
    obtain ⟨h1, h2⟩ := List.append_eq_nil.mp hnil
    have hu0 : (ab.filter (fun bw => !bw.1.tasted)).length = 0 := by
      rw [h1]
      rfl
    have hl := congrArg List.length h2
    rw [py_slice_to_length_nonneg _ (by omega)] at hl
    simp only [List.length_nil] at hl
    omega

theorem map_fst_not_isEmpty (pool : List (Bottle × Rat)) (h : pool ≠ []) :
    ¬ ((pool.map (fun bw => bw.1)).isEmpty = true) := by
  rw [List.isEmpty_iff, List.map_eq_nil_iff]
  exact h

theorem generate_schedule_core_seasonal (month : Int → Nat)
    (rnd : RandomSource) (bottles : List Bottle) (start_date weeks fd : Int)
    (pd : List String) (ad : List Int) (cp : List (String × Rat)) (md : Int)
    (se1 se2 : Bool) :
    generate_schedule_core month rnd bottles start_date weeks fd pd ad cp
      se1 md =
    generate_schedule_core month rnd bottles start_date weeks fd pd ad cp
      se2 md := by
  simp only [generate_schedule_core]
  split_ifs <;>
    first
    | rfl
    | exact congrArg Except.ok
        (schedule_loop_seasonal month fd md pd ad se1 se2 _ _ _ _)

/-- Unfolding equation of a successful run, with all guard conditions
supplied as hypotheses. -/
theorem generate_schedule_run (month : Int → Nat) (rnd : RandomSource)
    (bottles : List Bottle) (start_date weeks : Int) (config : Config)
    (pool : List (Bottle × Rat))
    (h1 : ¬ (weeks ≤ 0)) (h2 : ¬ (bottles.length = 0))
    (h3 : ¬ (get_tasting_frequency_days config = 0))
    (hpool : (if (bottles.length : Int)
        ≤ Int.tdiv (weeks * 7) (get_tasting_frequency_days config)
      then fill_pool rnd
        (weighted_pool (get_category_preferences config) bottles)
        (Int.tdiv (weeks * 7) (get_tasting_frequency_days config)
          - (bottles.length : Int))
      else truncate_pool
        (weighted_pool (get_category_preferences config) bottles)
        (Int.tdiv (weeks * 7) (get_tasting_frequency_days config))) = pool)
    (h4 : ¬ ((pool.map (fun bw => bw.1)).isEmpty = true))
    (h5 : ¬ ((pool.map (fun bw => bw.2)).sum ≤ 0)) :
    generate_schedule month rnd bottles start_date weeks config =
      Except.ok (schedule_loop month (get_tasting_frequency_days config)
        (get_min_days_between_category config) (get_preferred_days config)
        (get_avoid_dates config) (get_seasonal_adjustments config)
        (((attach_keys rnd.sort_key (rnd.shuffle_selected
          (rnd.choices (pool.map (fun bw => bw.1))
            (pool.map (fun bw => bw.2))
            (min (Int.tdiv (weeks * 7) (get_tasting_frequency_days config))
              (pool.length : Int)))) 0).insertionSort sort_rel).map
          (fun bk => bk.1))
        start_date [] 1) := by
  unfold generate_schedule
  rw [if_neg h1]
  simp only [generate_schedule_core]
  rw [if_neg h2, if_neg h3, hpool, if_neg h4, if_neg h5]

/-- The run of `fixedSource` on two untasted bottles over two weeks with the
default configuration. -/
theorem run_pair_default :
    generate_schedule month_jan fixedSource [bottleA, bottleB] 0 2 {} =
      Except.ok
        [{ week := 1, date := 0, bottle_id := 1, bottle_name := "Test Bourbon",
           category := "bourbon", abv := 0, is_repeat := false },
         { week := 2, date := 7, bottle_id := 1, bottle_name := "Test Bourbon",
           category := "bourbon", abv := 0, is_repeat := false }] := by
  have hpne : fill_pool fixedSource
      (weighted_pool (get_category_preferences ({} : Config))
        [bottleA, bottleB])
      (Int.tdiv ((2 : Int) * 7) (get_tasting_frequency_days {})
        - (([bottleA, bottleB] : List Bottle).length : Int)) ≠ [] :=
    fill_pool_ne_nil _ _ _ (weighted_pool_ne_nil _ _ (by decide))
  have hwpos : ∀ bw ∈ fill_pool fixedSource
      (weighted_pool (get_category_preferences ({} : Config))
        [bottleA, bottleB])
      (Int.tdiv ((2 : Int) * 7) (get_tasting_frequency_days {})
        - (([bottleA, bottleB] : List Bottle).length : Int)), 0 < bw.2 :=
    fun bw hbw => weighted_pool_weight_pos _ (by intro p hp; cases hp) _ _
      (fill_pool_mem fixedSource fixedSource_valid _ _ _ hbw)
  rw [generate_schedule_run month_jan fixedSource [bottleA, bottleB] 0 2 {}
    _ (by decide) (by decide) (by decide) (if_pos (by decide))
    (map_fst_not_isEmpty _ hpne)
    (not_le.mpr (pool_weights_sum_pos _ hpne hwpos))]
  rfl

/-- The run of `fixedSource` on one untasted bottle over one week with the
default configuration. -/
theorem run_single_default :
    generate_schedule month_jan fixedSource [bottleA] 0 1 {} =
      Except.ok
        [{ week := 1, date := 0, bottle_id := 1, bottle_name := "Test Bourbon",
           category := "bourbon", abv := 0, is_repeat := false }] := by
  have hpne : fill_pool fixedSource
      (weighted_pool (get_category_preferences ({} : Config)) [bottleA])
      (Int.tdiv ((1 : Int) * 7) (get_tasting_frequency_days {})
        - (([bottleA] : List Bottle).length : Int)) ≠ [] :=
    fill_pool_ne_nil _ _ _ (weighted_pool_ne_nil _ _ (by decide))
  have hwpos : ∀ bw ∈ fill_pool fixedSource
      (weighted_pool (get_category_preferences ({} : Config)) [bottleA])
      (Int.tdiv ((1 : Int) * 7) (get_tasting_frequency_days {})
        - (([bottleA] : List Bottle).length : Int)), 0 < bw.2 :=
    fun bw hbw => weighted_pool_weight_pos _ (by intro p hp; cases hp) _ _
      (fill_pool_mem fixedSource fixedSource_valid _ _ _ hbw)
  rw [generate_schedule_run month_jan fixedSource [bottleA] 0 1 {}
    _ (by decide) (by decide) (by decide) (if_pos (by decide))
    (map_fst_not_isEmpty _ hpne)
    (not_le.mpr (pool_weights_sum_pos _ hpne hwpos))]
  rfl

/-- The run of `fixedSource` on a bourbon and a tasted irish over two weeks
with a one-day minimum category spacing. -/
theorem run_spacing :
    generate_schedule month_jan fixedSource [bottleA, bottleC] 0 2
      cfgSpacing = Except.ok
        [{ week := 1, date := 0, bottle_id := 1, bottle_name := "Test Bourbon",
           category := "bourbon", abv := 0, is_repeat := false },
         { week := 2, date := 7, bottle_id := 1, bottle_name := "Test Bourbon",
           category := "bourbon", abv := 0, is_repeat := false }] := by
  have hpne : fill_pool fixedSource
      (weighted_pool (get_category_preferences cfgSpacing)
        [bottleA, bottleC])
      (Int.tdiv ((2 : Int) * 7) (get_tasting_frequency_days cfgSpacing)
        - (([bottleA, bottleC] : List Bottle).length : Int)) ≠ [] :=
    fill_pool_ne_nil _ _ _ (weighted_pool_ne_nil _ _ (by decide))
  have hwpos : ∀ bw ∈ fill_pool fixedSource
      (weighted_pool (get_category_preferences cfgSpacing)
        [bottleA, bottleC])
      (Int.tdiv ((2 : Int) * 7) (get_tasting_frequency_days cfgSpacing)
        - (([bottleA, bottleC] : List Bottle).length : Int)), 0 < bw.2 :=
    fun bw hbw => weighted_pool_weight_pos _ (by intro p hp; cases hp) _ _
      (fill_pool_mem fixedSource fixedSource_valid _ _ _ hbw)
  rw [generate_schedule_run month_jan fixedSource [bottleA, bottleC] 0 2
    cfgSpacing _ (by decide) (by decide) (by decide) (if_pos (by decide))
    (map_fst_not_isEmpty _ hpne)
    (not_le.mpr (pool_weights_sum_pos _ hpne hwpos))]
  rfl

/-- The run of `fixedSource` on two untasted bottles over two weeks with
Friday as the preferred day, starting on a Monday (day 0). -/
theorem run_friday :
    generate_schedule month_jan fixedSource [bottleA, bottleB] 0 2
      cfgFriday = Except.ok
        [{ week := 1, date := 4, bottle_id := 1, bottle_name := "Test Bourbon",
           category := "bourbon", abv := 0, is_repeat := false },
         { week := 2, date := 11, bottle_id := 1,
           bottle_name := "Test Bourbon", category := "bourbon", abv := 0,
           is_repeat := false }] := by
  have hpne : fill_pool fixedSource
      (weighted_pool (get_category_preferences cfgFriday)
        [bottleA, bottleB])
      (Int.tdiv ((2 : Int) * 7) (get_tasting_frequency_days cfgFriday)
        - (([bottleA, bottleB] : List Bottle).length : Int)) ≠ [] :=
    fill_pool_ne_nil _ _ _ (weighted_pool_ne_nil _ _ (by decide))
  have hwpos : ∀ bw ∈ fill_pool fixedSource
      (weighted_pool (get_category_preferences cfgFriday)
        [bottleA, bottleB])
      (Int.tdiv ((2 : Int) * 7) (get_tasting_frequency_days cfgFriday)
        - (([bottleA, bottleB] : List Bottle).length : Int)), 0 < bw.2 :=
    fun bw hbw => weighted_pool_weight_pos _ (by intro p hp; cases hp) _ _
      (fill_pool_mem fixedSource fixedSource_valid _ _ _ hbw)
  rw [generate_schedule_run month_jan fixedSource [bottleA, bottleB] 0 2
    cfgFriday _ (by decide) (by decide) (by decide) (if_pos (by decide))
    (map_fst_not_isEmpty _ hpne)
    (not_le.mpr (pool_weights_sum_pos _ hpne hwpos))]
  rfl

/-! ### Claim theorems -/

/-- C1 (code bug, evaluated): at the repository's own test fixture (two
untasted bottles and one tasted bottle) with 10 weeks and the default weekly
configuration, `repeat_pool[:needed_repeats]` appends only
`min(shortfall, len(repeat_pool)) = 1` extra candidate — there is no
sampling with replacement in the fill — so every outcome of the random
source yields a 4-entry schedule, not the 10-entry one the claim requires
and the repository's test `test_generate_schedule_basic`
(`assertEqual(len(schedule), 10)`) asserts. -/
theorem C1_repeat_fill_falls_short_of_horizon (rnd : RandomSource)
    (hv : rnd.Valid) (month : Int → Nat) :
    ∃ l, generate_schedule month rnd [bottleA, bottleB, bottleC] 0 10 {}
      = Except.ok l ∧ l.length = 4 := by
  have hs : rnd.shuffle_pool [(bottleC, 1)] = [(bottleC, 1)] :=
    List.perm_singleton.mp (hv.shuffle_pool_perm _)
  have hrp : (weighted_pool (get_category_preferences {})
      [bottleA, bottleB, bottleC]).filter (fun bw => bw.1.tasted)
      = [(bottleC, (1 : Rat))] := rfl
  have hfill : fill_pool rnd
      (weighted_pool (get_category_preferences {})
        [bottleA, bottleB, bottleC])
      (Int.tdiv ((10 : Int) * 7) (get_tasting_frequency_days {})
        - (([bottleA, bottleB, bottleC] : List Bottle).length : Int)) =
      weighted_pool (get_category_preferences {}) [bottleA, bottleB, bottleC]
        ++ [(bottleC, (1 : Rat))] := by
    simp only [fill_pool]
    rw [hrp, if_neg (by decide), hs]
    rfl
  have hpne : weighted_pool (get_category_preferences ({} : Config))
      [bottleA, bottleB, bottleC] ++ [(bottleC, (1 : Rat))] ≠ [] := by
    intro hnil
    exact List.cons_ne_nil _ _ (List.append_eq_nil.mp hnil).2
  have hwpos : ∀ bw ∈ weighted_pool (get_category_preferences ({} : Config))
      [bottleA, bottleB, bottleC] ++ [(bottleC, (1 : Rat))], 0 < bw.2 := by
    intro bw hbw
    rcases List.mem_append.mp hbw with h | h
    · exact weighted_pool_weight_pos _ (by intro p hp; cases hp) _ _ h
    · rw [List.mem_singleton.mp h]
      norm_num
  unfold generate_schedule
  rw [if_neg (show ¬ ((10 : Int) ≤ 0) by decide)]
  simp only [generate_schedule_core]
  rw [if_neg (show
    ¬ (([bottleA, bottleB, bottleC] : List Bottle).length = 0) by decide)]
  rw [if_neg (show ¬ (get_tasting_frequency_days {} = 0) by decide)]
  rw [if_pos (show ((([bottleA, bottleB, bottleC] : List Bottle).length : Int))
      ≤ Int.tdiv ((10 : Int) * 7) (get_tasting_frequency_days {}) by decide)]
  rw [hfill, if_neg (map_fst_not_isEmpty _ hpne),
    if_neg (not_le.mpr (pool_weights_sum_pos _ hpne hwpos))]
  refine ⟨_, rfl, ?_⟩
  have hch := hv.choices_length
    ((weighted_pool (get_category_preferences ({} : Config))
      [bottleA, bottleB, bottleC] ++ [(bottleC, (1 : Rat))]).map
      (fun bw => bw.1))
    ((weighted_pool (get_category_preferences ({} : Config))
      [bottleA, bottleB, bottleC] ++ [(bottleC, (1 : Rat))]).map
      (fun bw => bw.2))
    (min (Int.tdiv ((10 : Int) * 7) (get_tasting_frequency_days {}))
      (((weighted_pool (get_category_preferences ({} : Config))
        [bottleA, bottleB, bottleC] ++ [(bottleC, (1 : Rat))]).length : Int)))
    (by decide)
  rw [schedule_loop_length, List.length_map, List.length_insertionSort,
    attach_keys_length, (hv.shuffle_selected_perm _).length_eq, hch]
  decide

/-- C1 (witness): the evaluation theorem applied at the concrete random
outcome `fixedSource`. -/
theorem C1_witness :
    ∃ l, generate_schedule month_jan fixedSource
      [bottleA, bottleB, bottleC] 0 10 {} = Except.ok l ∧ l.length = 4 :=
  C1_repeat_fill_falls_short_of_horizon fixedSource fixedSource_valid
    month_jan

/-- C2 (counterexample): the claim "generate_schedule never raises an
exception across its boundary under any input, including a custom frequency
of zero" is false: with a custom cadence whose `custom_interval_days` is 0,
one bottle, and one week, `int(total_days / frequency_days)` raises
`ZeroDivisionError`. -/
theorem C2_counterexample_zero_custom_frequency :
    generate_schedule month_jan fixedSource [bottleA] 0 1
      { tasting_frequency := some "custom", custom_interval_days := some 0 }
      = Except.error "ZeroDivisionError" := by
  rfl

/-- C2 (amended): `generate_schedule` raises no exception provided every
configured category weight is positive and the resolved frequency is at
least one day and at most the total scheduled days (`weeks * 7`) — the
degenerate horizons and the empty inventory are still exception-free.  A
custom frequency of zero (ZeroDivisionError), and a frequency so large or so
negative that the pool truncates to nothing (IndexError inside
`random.choices`), do raise. -/
theorem C2_no_exception_with_positive_frequency (month : Int → Nat)
    (rnd : RandomSource) (collection : List Bottle) (start_date weeks : Int)
    (config : Config) (hv : rnd.Valid)
    (hfreq : 1 ≤ get_tasting_frequency_days config)
    (hcp : ∀ p ∈ get_category_preferences config, 0 < p.2)
    (hcover : get_tasting_frequency_days config ≤ weeks * 7 ∨ weeks ≤ 0
      ∨ collection = []) :
    ∃ l, generate_schedule month rnd collection start_date weeks config
      = Except.ok l := by
  unfold generate_schedule
  by_cases hw : weeks ≤ 0
  · rw [if_pos hw]
    exact ⟨[], rfl⟩
  rw [if_neg hw]
  simp only [generate_schedule_core]
  by_cases h0 : collection.length = 0
  · rw [if_pos h0]
    exact ⟨[], rfl⟩
  rw [if_neg h0, if_neg (show ¬ (get_tasting_frequency_days config = 0) by omega)]
  have hcne : collection ≠ [] := by
    intro hc
    rw [hc] at h0
    exact h0 rfl
  have habne : weighted_pool (get_category_preferences config) collection ≠ [] :=
    weighted_pool_ne_nil _ _ hcne
  have h1T : 1 ≤ Int.tdiv (weeks * 7) (get_tasting_frequency_days config) := by
    rcases hcover with hc | hc | hc
    · exact one_le_tdiv _ _ hfreq hc
    · omega
    · exact absurd hc hcne
  by_cases hcond : (collection.length : Int)
      ≤ Int.tdiv (weeks * 7) (get_tasting_frequency_days config)
  · rw [if_pos hcond]
    have hpne := fill_pool_ne_nil rnd
      (weighted_pool (get_category_preferences config) collection)
      (Int.tdiv (weeks * 7) (get_tasting_frequency_days config)
        - (collection.length : Int)) habne
    have hwpos : ∀ bw ∈ fill_pool rnd
        (weighted_pool (get_category_preferences config) collection)
        (Int.tdiv (weeks * 7) (get_tasting_frequency_days config)
          - (collection.length : Int)), 0 < bw.2 := fun bw hbw =>
      weighted_pool_weight_pos _ hcp _ _ (fill_pool_mem rnd hv _ _ _ hbw)
    rw [if_neg (map_fst_not_isEmpty _ hpne),
      if_neg (not_le.mpr (pool_weights_sum_pos _ hpne hwpos))]
    exact ⟨_, rfl⟩
  · rw [if_neg hcond]
    have hpne := truncate_pool_ne_nil
      (weighted_pool (get_category_preferences config) collection)
      (Int.tdiv (weeks * 7) (get_tasting_frequency_days config)) h1T habne
    have hwpos : ∀ bw ∈ truncate_pool
        (weighted_pool (get_category_preferences config) collection)
        (Int.tdiv (weeks * 7) (get_tasting_frequency_days config)),
        0 < bw.2 := fun bw hbw =>
      weighted_pool_weight_pos _ hcp _ _ (truncate_pool_mem _ _ _ hbw)
    rw [if_neg (map_fst_not_isEmpty _ hpne),
      if_neg (not_le.mpr (pool_weights_sum_pos _ hpne hwpos))]
    exact ⟨_, rfl⟩

/-- C2 (witness): the amended theorem applied at the test-fixture bottle,
one week, and the default (weekly) configuration. -/
theorem C2_no_exception_witness :
    ∃ l, generate_schedule month_jan fixedSource [bottleA] 0 1 {}
      = Except.ok l :=
  C2_no_exception_with_positive_frequency month_jan fixedSource [bottleA] 0 1
    {} fixedSource_valid (by decide)
    (by intro p hp; cases hp) (Or.inl (by decide))

/-- C3 (counterexample): a custom cadence with `custom_interval_days = 0`
resolves to 0, not to the 7 the claim's "defaulting to 7 whenever that value
is absent or non-positive" requires: the dictionary default applies only
when the key is absent. -/
theorem C3_counterexample_nonpositive_custom_interval :
    get_tasting_frequency_days
      { tasting_frequency := some "custom", custom_interval_days := some 0 }
      = 0 ∧
    get_tasting_frequency_days
      { tasting_frequency := some "custom", custom_interval_days := some 0 }
      ≠ 7 := by
  constructor
  · rfl
  · decide

/-- C3 (amended): named cadences map "weekly" to 7, "bi-weekly" to 14 and
"monthly" to 30; a "custom" cadence returns `custom_interval_days` verbatim
whenever the field is present — including zero and negative values — and
defaults to 7 only when the field is absent; an absent or unrecognized
cadence also yields 7. -/
theorem C3_frequency_resolution (c : Config) (d : Int) :
    (c.tasting_frequency = some "weekly" →
      get_tasting_frequency_days c = 7) ∧
    (c.tasting_frequency = some "bi-weekly" →
      get_tasting_frequency_days c = 14) ∧
    (c.tasting_frequency = some "monthly" →
      get_tasting_frequency_days c = 30) ∧
    (c.tasting_frequency = some "custom" → c.custom_interval_days = some d →
      get_tasting_frequency_days c = d) ∧
    (c.tasting_frequency = some "custom" → c.custom_interval_days = none →
      get_tasting_frequency_days c = 7) ∧
    (c.tasting_frequency = none → get_tasting_frequency_days c = 7) := by
  refine ⟨?_, ?_, ?_, ?_, ?_, ?_⟩
  · intro h
    simp [get_tasting_frequency_days, h]
  · intro h
    simp [get_tasting_frequency_days, h]
  · intro h
    simp [get_tasting_frequency_days, h]
  · intro h1 h2
    simp [get_tasting_frequency_days, h1, h2]
  · intro h1 h2
    simp [get_tasting_frequency_days, h1, h2]
  · intro h
    simp [get_tasting_frequency_days, h]

/-- C3 (witness): the amended theorem applied at a custom cadence of 10
days. -/
theorem C3_frequency_resolution_witness :
    get_tasting_frequency_days
      { tasting_frequency := some "custom", custom_interval_days := some 10 }
      = 10 :=
  (C3_frequency_resolution
    { tasting_frequency := some "custom", custom_interval_days := some 10 }
    10).2.2.2.1 rfl rfl

/-- C4 (counterexample): the selection uses `random.choices`, which samples
WITH replacement: under the reachable outcome `fixedSource` (positive
probability under the concrete weights 2, 2), two untasted bottles over a
2-week horizon yield bottle 1 twice, and bottle 2 never appears although the
horizon equals the pool size — refuting both "no pool occurrence is selected
more than once" and the at-least-once coverage. -/
theorem C4_counterexample_with_replacement :
    fixedSource.Valid ∧
    generate_schedule month_jan fixedSource [bottleA, bottleB] 0 2 {} =
      Except.ok
        [{ week := 1, date := 0, bottle_id := 1, bottle_name := "Test Bourbon",
           category := "bourbon", abv := 0, is_repeat := false },
         { week := 2, date := 7, bottle_id := 1, bottle_name := "Test Bourbon",
           category := "bourbon", abv := 0, is_repeat := false }] ∧
    bottleB.id = 2 :=
  ⟨fixedSource_valid, run_pair_default, rfl⟩

/-- C4 (amended): the sampling is weight-proportional WITH replacement, so
occurrences can repeat and a bottle id can be absent even when the horizon
is at least the pool size; what does hold for every outcome of the random
source is that each scheduled entry is drawn from the (possibly filled)
pool, hence from the collection: its bottle id and repeat flag are those of
some bottle of the collection. -/
theorem C4_entries_drawn_from_collection (month : Int → Nat)
    (rnd : RandomSource) (collection : List Bottle) (start_date weeks : Int)
    (config : Config) (l : List Entry) (hv : rnd.Valid)
    (h : generate_schedule month rnd collection start_date weeks config
      = Except.ok l) :
    ∀ e ∈ l, ∃ b ∈ collection, e.bottle_id = b.id ∧ e.is_repeat = b.tasted := by
  rcases generate_schedule_ok month rnd collection start_date weeks config l
    hv h with rfl | ⟨bs, hmem, _, rfl⟩
  · intro e he
    cases he
  · intro e he
    obtain ⟨b, hb, h1, h2, _⟩ :=
      schedule_loop_mem month _ _ _ _ _ bs start_date [] 1 e he
    exact ⟨b, hmem b hb, h1, h2⟩

/-- C4 (witness): the amended theorem applied at the single-bottle run. -/
theorem C4_entries_drawn_witness :
    ∃ b ∈ [bottleA],
      ({ week := 1, date := 0, bottle_id := 1,
         bottle_name := "Test Bourbon", category := "bourbon", abv := 0,
         is_repeat := false } : Entry).bottle_id = b.id ∧
      ({ week := 1, date := 0, bottle_id := 1,
         bottle_name := "Test Bourbon", category := "bourbon", abv := 0,
         is_repeat := false } : Entry).is_repeat = b.tasted :=
  C4_entries_drawn_from_collection month_jan fixedSource [bottleA] 0 1 {}
    _ fixedSource_valid run_single_default _ (List.mem_cons_self _ _)

/-- C5: whenever the resolved frequency is at least one day, consecutive
entries of any successful run carry non-decreasing dates: the three date
adjustments only move the cursor forward, and the cursor advances by the
frequency between entries. -/
theorem C5_dates_non_decreasing (month : Int → Nat) (rnd : RandomSource)
    (collection : List Bottle) (start_date weeks : Int) (config : Config)
    (l : List Entry) (hv : rnd.Valid)
    (hfreq : 1 ≤ get_tasting_frequency_days config)
    (h : generate_schedule month rnd collection start_date weeks config
      = Except.ok l) :
    l.Chain' (fun e1 e2 => e1.date ≤ e2.date) := by
  rcases generate_schedule_ok month rnd collection start_date weeks config l
    hv h with rfl | ⟨bs, _, _, rfl⟩
  · exact List.chain'_nil
  · exact (schedule_loop_chain month _ _ _ _ _ hfreq bs start_date [] 1).1

/-- C5 (witness): the theorem applied at the two-entry default run (dates 0
and 7). -/
theorem C5_dates_witness :
    List.Chain' (fun e1 e2 : Entry => e1.date ≤ e2.date)
      [{ week := 1, date := 0, bottle_id := 1, bottle_name := "Test Bourbon",
         category := "bourbon", abv := 0, is_repeat := false },
       { week := 2, date := 7, bottle_id := 1, bottle_name := "Test Bourbon",
         category := "bourbon", abv := 0, is_repeat := false }] :=
  C5_dates_non_decreasing month_jan fixedSource [bottleA, bottleB] 0 2 {}
    _ fixedSource_valid (by decide) run_pair_default

/-- C6: with a positive minimum category spacing `d`, any two entries of a
successful run that carry the same category string lie at least `d` days
apart — unconditionally: the blackout-avoidance ceiling can only move dates
further forward and therefore never violates this lower bound, so the
claim's allowance for a ceiling-forced violation is never needed. -/
theorem C6_category_spacing (month : Int → Nat) (rnd : RandomSource)
    (collection : List Bottle) (start_date weeks : Int) (config : Config)
    (l : List Entry) (hv : rnd.Valid)
    (hmd : 0 < get_min_days_between_category config)
    (h : generate_schedule month rnd collection start_date weeks config
      = Except.ok l) :
    l.Pairwise (fun e1 e2 => e1.category = e2.category →
      e1.date + get_min_days_between_category config ≤ e2.date) := by
  rcases generate_schedule_ok month rnd collection start_date weeks config l
    hv h with rfl | ⟨bs, _, _, rfl⟩
  · exact List.Pairwise.nil
  · exact (schedule_loop_spacing month _ _ _ _ _ hmd bs start_date [] 1).1

/-- C6 (witness): the theorem applied at the spacing run (two bourbon
entries on days 0 and 7, spacing 1). -/
theorem C6_category_spacing_witness :
    List.Pairwise (fun e1 e2 : Entry => e1.category = e2.category →
      e1.date + get_min_days_between_category cfgSpacing ≤ e2.date)
      [{ week := 1, date := 0, bottle_id := 1, bottle_name := "Test Bourbon",
         category := "bourbon", abv := 0, is_repeat := false },
       { week := 2, date := 7, bottle_id := 1, bottle_name := "Test Bourbon",
         category := "bourbon", abv := 0, is_repeat := false }] :=
  C6_category_spacing month_jan fixedSource [bottleA, bottleC] 0 2
    cfgSpacing _ fixedSource_valid (by decide) run_spacing

/-- C7: when the resolved preferred-weekday set is non-empty (the configured
list contains at least one recognized day name) and the blackout set is
empty, every entry date of a successful run falls on a preferred weekday;
moreover the snapping step never moves a date backwards, advances it by at
most 6 days, lands exactly on the nearest preferred weekday (no earlier
reachable day is preferred), and leaves a date already on a preferred
weekday unchanged. -/
theorem C7_preferred_day_conformance (month : Int → Nat)
    (rnd : RandomSource) (collection : List Bottle) (start_date weeks : Int)
    (config : Config) (l : List Entry) (hv : rnd.Valid)
    (hpw : preferred_weekdays (get_preferred_days config) ≠ [])
    (hav : get_avoid_dates config = [])
    (h : generate_schedule month rnd collection start_date weeks config
      = Except.ok l) :
    (∀ e ∈ l, weekday e.date ∈ preferred_weekdays (get_preferred_days config))
    ∧ (∀ date : Int,
        date ≤ adjust_to_preferred_day date (get_preferred_days config) ∧
        adjust_to_preferred_day date (get_preferred_days config) ≤ date + 6 ∧
        weekday (adjust_to_preferred_day date (get_preferred_days config))
          ∈ preferred_weekdays (get_preferred_days config) ∧
        (∀ k, date ≤ k →
          k < adjust_to_preferred_day date (get_preferred_days config) →
          weekday k ∉ preferred_weekdays (get_preferred_days config)))
    ∧ (∀ date : Int,
        weekday date ∈ preferred_weekdays (get_preferred_days config) →
        adjust_to_preferred_day date (get_preferred_days config) = date) := by
  refine ⟨?_, ?_, fun date hd => adjust_eq_self date _ hd⟩
  · rcases generate_schedule_ok month rnd collection start_date weeks config
      l hv h with rfl | ⟨bs, _, _, rfl⟩
    · intro e he
      cases he
    · intro e he
      rw [hav] at he
      exact schedule_loop_preferred month _ _ _ _ hpw bs start_date [] 1 e he
  · intro date
    exact ⟨le_adjust date _, adjust_le_add_six date _,
      weekday_adjust_mem date _ hpw,
      fun k h1 h2 => adjust_minimal date k _ h1 h2⟩

/-- C7 (witness): the theorem applied at the Friday run; the first entry's
date 4 is a Friday. -/
theorem C7_preferred_day_witness :
    weekday (4 : Int) ∈ preferred_weekdays (get_preferred_days cfgFriday) :=
  (C7_preferred_day_conformance month_jan fixedSource [bottleA, bottleB] 0 2
    cfgFriday _ fixedSource_valid (by decide) rfl run_friday).1
    _ (List.mem_cons_self _ _)

/-- C8: the seasonal-adjustments flag has no effect on the output: for every
collection, start date, horizon, month function, remaining configuration and
identical random source, the two runs agree — `get_seasonal_weight` is
computed inside the loop and immediately discarded. -/
theorem C8_seasonal_flag_no_effect (month : Int → Nat) (rnd : RandomSource)
    (collection : List Bottle) (start_date weeks : Int) (config : Config)
    (b1 b2 : Option Bool) :
    generate_schedule month rnd collection start_date weeks
      { config with seasonal_adjustments := b1 } =
    generate_schedule month rnd collection start_date weeks
      { config with seasonal_adjustments := b2 } := by
  unfold generate_schedule
  by_cases hw : weeks ≤ 0
  · rw [if_pos hw, if_pos hw]
  · rw [if_neg hw, if_neg hw]
    exact generate_schedule_core_seasonal month rnd collection start_date
      weeks (get_tasting_frequency_days config) (get_preferred_days config)
      (get_avoid_dates config) (get_category_preferences config)
      (get_min_days_between_category config)
      (get_seasonal_adjustments { config with seasonal_adjustments := b1 })
      (get_seasonal_adjustments { config with seasonal_adjustments := b2 })

/-- C9: a zero or negative number of weeks, and likewise an empty bottle
inventory, return the empty schedule through the normal return path — no
exception. -/
theorem C9_degenerate_inputs_empty_schedule (month : Int → Nat)
    (rnd : RandomSource) (collection : List Bottle) (start_date weeks : Int)
    (config : Config) (h : weeks ≤ 0 ∨ collection = []) :
    generate_schedule month rnd collection start_date weeks config
      = Except.ok [] := by
  unfold generate_schedule
  rcases h with h | h
  · rw [if_pos h]
  · subst h
    split_ifs with hw
    · rfl
    · simp only [generate_schedule_core]
      rw [if_pos (show ([] : List Bottle).length = 0 from rfl)]

/-- C9 (witness): the theorem applied at the empty inventory with a 10-week
horizon. -/
theorem C9_degenerate_witness :
    generate_schedule month_jan fixedSource [] 0 10 {} = Except.ok [] :=
  C9_degenerate_inputs_empty_schedule month_jan fixedSource [] 0 10 {}
    (Or.inr rfl)

/-- C10: in every successful run (tasted flags are booleans in this model),
entries with `is_repeat = false` strictly precede entries with
`is_repeat = true`: the post-selection stable sort keyed on the tasted flag
makes untasted-first a hard guarantee of the output order. -/
theorem C10_untasted_precede_repeats (month : Int → Nat)
    (rnd : RandomSource) (collection : List Bottle) (start_date weeks : Int)
    (config : Config) (l : List Entry) (hv : rnd.Valid)
    (h : generate_schedule month rnd collection start_date weeks config
      = Except.ok l) :
    l.Pairwise (fun e1 e2 => e1.is_repeat = true → e2.is_repeat = true) := by
  rcases generate_schedule_ok month rnd collection start_date weeks config l
    hv h with rfl | ⟨bs, _, hpw, rfl⟩
  · exact List.Pairwise.nil
  · exact schedule_loop_pairwise_repeat month _ _ _ _ _ bs start_date [] 1 hpw

/-- C10 (witness): the theorem applied at the single-bottle run. -/
theorem C10_untasted_precede_witness :
    List.Pairwise
      (fun e1 e2 : Entry => e1.is_repeat = true → e2.is_repeat = true)
      [{ week := 1, date := 0, bottle_id := 1, bottle_name := "Test Bourbon",
         category := "bourbon", abv := 0, is_repeat := false }] :=
  C10_untasted_precede_repeats month_jan fixedSource [bottleA] 0 1 {}
    _ fixedSource_valid run_single_default

end DramPlanner
